import Mathlib

set_option maxHeartbeats 1000000

/-!
Verification of the fluentquery range algebra, planner and executor.

Shallow embedding conventions:
* JS `undefined` bounds and values are modelled as `Option.none`.
* The host comparator `indexedDB.cmp` (an external collaborator of the
  repository, specified in §3 of the spec as the total order
  number < timestamp < string < sequence, lexicographic on sequences)
  is modelled by `cmp` below.
* JS numbers are modelled as `Int`: every numeric literal appearing in the
  verified claims is integral.
* Streams (`Observable`) are modelled as lists in emission order.
-/

namespace FluentQuery

/-- The ordered key domain of §3: number < timestamp < string < sequence. -/
inductive Value where
  | num (n : Int)
  | date (t : Int)
  | str (s : String)
  | arr (elems : List Value)

mutual

/-- Structural equality of values. -/
def Value.beq : Value → Value → Bool
  | .num a, .num b => a == b
  | .date a, .date b => a == b
  | .str a, .str b => a == b
  | .arr a, .arr b => Value.beqList a b
  | _, _ => false

/-- Structural equality of value sequences. -/
def Value.beqList : List Value → List Value → Bool
  | [], [] => true
  | a :: as, b :: bs => Value.beq a b && Value.beqList as bs
  | _, _ => false

end

mutual

theorem Value.beq_iff : ∀ a b : Value, Value.beq a b = true ↔ a = b
  | .num _, .num _ => by simp [Value.beq]
  | .num _, .date _ => by simp [Value.beq]
  | .num _, .str _ => by simp [Value.beq]
  | .num _, .arr _ => by simp [Value.beq]
  | .date _, .num _ => by simp [Value.beq]
  | .date _, .date _ => by simp [Value.beq]
  | .date _, .str _ => by simp [Value.beq]
  | .date _, .arr _ => by simp [Value.beq]
  | .str _, .num _ => by simp [Value.beq]
  | .str _, .date _ => by simp [Value.beq]
  | .str _, .str _ => by simp [Value.beq]
  | .str _, .arr _ => by simp [Value.beq]
  | .arr _, .num _ => by simp [Value.beq]
  | .arr _, .date _ => by simp [Value.beq]
  | .arr _, .str _ => by simp [Value.beq]
  | .arr a, .arr b => by
    rw [show Value.beq (.arr a) (.arr b) = Value.beqList a b from rfl]
    rw [Value.beqList_iff a b]
    simp

theorem Value.beqList_iff : ∀ a b : List Value, Value.beqList a b = true ↔ a = b
  | [], [] => by simp [Value.beqList]
  | [], _ :: _ => by simp [Value.beqList]
  | _ :: _, [] => by simp [Value.beqList]
  | a :: as, b :: bs => by
    rw [show Value.beqList (a :: as) (b :: bs) = (Value.beq a b && Value.beqList as bs) from rfl]
    rw [Bool.and_eq_true]
    rw [Value.beq_iff a b, Value.beqList_iff as bs]
    simp

end

instance : DecidableEq Value := fun a b =>
  decidable_of_iff (Value.beq a b = true) (Value.beq_iff a b)

/-- Three-way comparison of two integers, as -1/0/1. -/
def cmpInt (a b : Int) : Int :=
  if a < b then -1 else if b < a then 1 else 0

mutual

/-- The host comparator `indexedDB.cmp`, modelled from the spec (§3):
types ordered number < timestamp < string < sequence, natural order within a
type, lexicographic on sequences with the shorter sequence first. -/
def cmp : Value → Value → Int
  | .num a, .num b => cmpInt a b
  | .num _, _ => -1
  | _, .num _ => 1
  | .date a, .date b => cmpInt a b
  | .date _, _ => -1
  | _, .date _ => 1
  | .str a, .str b =>
    match compare a b with
    | .lt => -1
    | .eq => 0
    | .gt => 1
  | .str _, _ => -1
  | _, .str _ => 1
  | .arr a, .arr b => cmpList a b

/-- Lexicographic comparison of key sequences; a strict prefix is smaller. -/
def cmpList : List Value → List Value → Int
  | [], [] => 0
  | [], _ :: _ => -1
  | _ :: _, [] => 1
  | a :: as, b :: bs =>
    let c := cmp a b
    if c = 0 then cmpList as bs else c

end

/-- One interval of the range algebra (class `Range` of range.js).
A `none` bound models a JS `undefined` bound, i.e. unbounded. -/
structure Range where
  lower : Option Value
  upper : Option Value
  lowerOpen : Bool := false
  upperOpen : Bool := false
deriving DecidableEq

/-- `Range.prepare`: a bounded interval is kept only when non-trivial
(lower before upper, or equal with both ends closed). -/
def Range.prepare (r : Range) : List Range :=
  match r.lower, r.upper with
  | none, _ => [r]
  | _, none => [r]
  | some l, some u =>
    let c := cmp l u
    if c < 0 ∨ (c = 0 ∧ r.lowerOpen = false ∧ r.upperOpen = false) then [r] else []

/-- `Range.includes`: membership of a value in one interval; `undefined`
is never included. -/
def Range.includes (r : Range) (v? : Option Value) : Bool :=
  match v? with
  | none => false
  | some v =>
    (match r.lower with
     | none => true
     | some l =>
       if cmp v l < 0 then false
       else if cmp v l = 0 ∧ r.lowerOpen then false
       else true) &&
    (match r.upper with
     | none => true
     | some u =>
       if cmp v u > 0 then false
       else if cmp v u = 0 ∧ r.upperOpen then false
       else true)

/-- `Range.isEquality` for a literal interval. The host comparator throws on
an `undefined` argument, and no translated call site reaches this function
with an unbounded interval, so unbounded intervals map to `false`. -/
def Range.isEquality (r : Range) : Bool :=
  !r.lowerOpen && !r.upperOpen &&
    match r.lower, r.upper with
    | some l, some u => cmp l u == 0
    | _, _ => false

/-- `Range.cmpUpper`: order two intervals by upper endpoint
(unbounded upper last, open upper before closed at the same point). -/
def Range.cmpUpper (a b : Range) : Int :=
  match a.upper, b.upper with
  | none, none => 0
  | none, some _ => 1
  | some _, none => -1
  | some au, some bu =>
    let c := cmp au bu
    if c ≠ 0 then c
    else if a.upperOpen ∧ ¬b.upperOpen then -1
    else if b.upperOpen ∧ ¬a.upperOpen then 1
    else 0

/-- `Range.cmpLower`: order two intervals by lower endpoint (unbounded lower
first, closed before open at the same point, ties broken by upper reversed). -/
def Range.cmpLower (a b : Range) : Int :=
  match a.lower, b.lower with
  | none, none => 0
  | none, some _ => -1
  | some _, none => 1
  | some al, some bl =>
    let c := cmp al bl
    if c ≠ 0 then c
    else if ¬a.lowerOpen ∧ b.lowerOpen then -1
    else if ¬b.lowerOpen ∧ a.lowerOpen then 1
    else -(a.cmpUpper b)

/-- `Range.partialIntersects` of range.js (only meaningful when `a.lower`
precedes `b.lower`): does `b` start no later than `a` ends? -/
def Range.partlyIntersects (a b : Range) : Bool :=
  match b.lower, a.upper with
  | none, _ => true
  | _, none => true
  | some bl, some au =>
    let c := cmp bl au
    c < 0 ∨ (c = 0 ∧ ¬(b.lowerOpen ∧ a.upperOpen))

/-- The sorted-merge phase of `RangeUnion.prepare`: repeatedly move the
interval with the smaller lower endpoint, then append the leftovers. The step
count is an explicit bound; `left.length + right.length` always suffices
because every step moves one interval. -/
def unionMergeRun : Nat → List Range → List Range → List Range
  | 0, left, right => left ++ right
  | _ + 1, [], right => right
  | _ + 1, left, [] => left
  | fuel + 1, a :: l, b :: r =>
    if a.cmpLower b < 0 then a :: unionMergeRun fuel l (b :: r)
    else b :: unionMergeRun fuel (a :: l) r

/-- The sorted-merge phase of `RangeUnion.prepare`. -/
def unionMergeLists (left right : List Range) : List Range :=
  unionMergeRun (left.length + right.length) left right

/-- The coalescing phase of `RangeUnion.prepare`: absorb every following
interval that partially intersects the current one, extending its upper
endpoint where the absorbed interval reaches further. -/
def unionCoalesceGo (acc : Range) : List Range → List Range
  | [] => [acc]
  | b :: rest =>
    if acc.partlyIntersects b then
      unionCoalesceGo
        (if acc.cmpUpper b < 0 then { acc with upper := b.upper, upperOpen := b.upperOpen } else acc)
        rest
    else acc :: unionCoalesceGo b rest

/-- Coalesce a lower-sorted list of intervals, as the second loop of
`RangeUnion.prepare` does. -/
def unionCoalesce : List Range → List Range
  | [] => []
  | a :: rest => unionCoalesceGo a rest

/-- The inner loop of `RangeIntersection.prepare`: consume right-hand
intervals that partially intersect `acc`, clamping each to `acc`'s upper
endpoint; return the emitted intersections and the untouched remainder. -/
def intersectAbsorb (acc : Range) : List Range → List Range × List Range
  | [] => ([], [])
  | b :: rest =>
    if acc.partlyIntersects b then
      let inter :=
        if b.cmpUpper acc > 0 then { b with upper := acc.upper, upperOpen := acc.upperOpen } else b
      let p := intersectAbsorb acc rest
      (inter :: p.1, p.2)
    else ([], b :: rest)

/-- The outer loop of `RangeIntersection.prepare`, with the step count as an
explicit bound: each step swaps the lists when the right head starts first,
removes the head of the left list, and runs the inner absorb loop. The bound
`left.length + right.length` of `intersectPrepare` always suffices because
every step removes at least one interval. -/
def intersectRun : Nat → List Range → List Range → List Range
  | 0, _, _ => []
  | _ + 1, [], _ => []
  | _ + 1, _, [] => []
  | fuel + 1, a :: l, b :: r =>
    if a.cmpLower b > 0 then
      let p := intersectAbsorb b (a :: l)
      p.1 ++ intersectRun fuel r p.2
    else
      let p := intersectAbsorb a (b :: r)
      p.1 ++ intersectRun fuel l p.2

/-- `RangeIntersection.prepare` on two already-prepared interval lists. -/
def intersectPrepare (left right : List Range) : List Range :=
  intersectRun (left.length + right.length) left right

/-- `RangeUnion.prepare` on two already-prepared interval lists. -/
def unionPrepare (left right : List Range) : List Range :=
  unionCoalesce (unionMergeLists left right)

/-- The helper `includes(ranges)` of range.js: membership in any interval of
a prepared list. -/
def rangesInclude (rs : List Range) (v? : Option Value) : Bool :=
  rs.any (·.includes v?)

/-- Logical operators recognised by `extractKeyRanges`. -/
inductive LogicalOp where
  | and
  | or
deriving DecidableEq

/-- The five comparison operators of `RANGE_OPS` after rewriting
(`==` becomes strict `===`). -/
inductive BinOp where
  | eqq
  | ge
  | gt
  | le
  | lt
deriving DecidableEq

/-- Parsed expression nodes, after the compiler has rewritten comparisons to
`$$cmp(lhs, rhs) <op> 0`. Call nodes carry exactly two arguments: the only
call shape the translated code inspects or evaluates is `$$cmp(a, b)`. -/
inductive JsNode where
  | ident (name : String)
  | member (obj : JsNode) (prop : String)
  | numLit (n : Int)
  | call (callee : JsNode) (arg0 arg1 : JsNode)
  | logical (op : LogicalOp) (left right : JsNode)
  | binary (op : BinOp) (left right : JsNode)
  | unaryNot (arg : JsNode)
deriving DecidableEq

/-- The range class hierarchy of range.js: literal `Range`,
`RangeExpression` (per-context bound functions), `RangeUnion` and
`RangeIntersection`. A bound function is tagged with the AST node it was
compiled from, so the JS reference equality `lowerFn === upperFn` used by
`RangeExpression.isEquality` is decidable: `extractKeyRanges` only ever
builds an expression range from a single compiled node. A bound function
returning `none` models a JS function returning `undefined`. -/
inductive KeyRange (Ctx : Type) where
  | range (r : Range)
  | expression (lowerFn upperFn : Option (JsNode × (Ctx → Option Value)))
      (lowerOpen upperOpen : Bool)
  | union (left right : KeyRange Ctx)
  | intersection (left right : KeyRange Ctx)

/-- `prepare(context)` for the four range classes: a literal or evaluated
interval prepares itself; a union merges by lower endpoint and coalesces;
an intersection runs the pairwise sweep. -/
def KeyRange.prepare {Ctx : Type} : KeyRange Ctx → Ctx → List Range
  | .range r, _ => r.prepare
  | .expression lf uf lo uo, c =>
    Range.prepare ⟨lf.bind (fun p => p.2 c), uf.bind (fun p => p.2 c), lo, uo⟩
  | .union l r, c => unionPrepare (l.prepare c) (r.prepare c)
  | .intersection l r, c => intersectPrepare (l.prepare c) (r.prepare c)

/-- `isEquality()` across the range classes; conservative `false` for
unions, disjunction for intersections, bound-function reference equality
for expression ranges. -/
def KeyRange.isEquality {Ctx : Type} : KeyRange Ctx → Bool
  | .range r => r.isEquality
  | .expression lf uf lo uo =>
    !lo && !uo &&
      match lf, uf with
      | none, none => true
      | some (n1, _), some (n2, _) => n1 == n2
      | _, _ => false
  | .union _ _ => false
  | .intersection l r => l.isEquality || r.isEquality

/-- C10 claim statement: `includes(undefined)` is false for every interval. -/
theorem range_includes_undefined_false (r : Range) : r.includes none = false := rfl

/-- The left operand for the C1 failing input:
`RangeUnion(Range(1,5), Range(8,20))`. -/
def c1Left : KeyRange Unit :=
  .union (.range ⟨some (.num 1), some (.num 5), false, false⟩)
    (.range ⟨some (.num 8), some (.num 20), false, false⟩)

/-- The right operand for the C1 failing input: `Range(2,10)`. -/
def c1Right : KeyRange Unit := .range ⟨some (.num 2), some (.num 10), false, false⟩

/-- The C1 failing input: `RangeIntersection(RangeUnion([1,5],[8,20]), [2,10])`. -/
def c1Inter : KeyRange Unit := .intersection c1Left c1Right

/-- C1: the membership equivalence for `RangeIntersection` fails. At the
failing input, the value 9 is included in a prepared interval of both
operands, yet `prepare` of the intersection returns only `[2,5]`, which
excludes 9: the sweep consumes the right interval `[2,10]` entirely while
processing the left interval `[1,5]`, losing its overlap `[8,10]` with the
later left interval `[8,20]`. -/
theorem c1_intersection_membership_fails :
    c1Left.prepare () =
      [⟨some (.num 1), some (.num 5), false, false⟩,
       ⟨some (.num 8), some (.num 20), false, false⟩] ∧
    rangesInclude (c1Left.prepare ()) (some (.num 9)) = true ∧
    rangesInclude (c1Right.prepare ()) (some (.num 9)) = true ∧
    c1Inter.prepare () = [⟨some (.num 2), some (.num 5), false, false⟩] ∧
    rangesInclude (c1Inter.prepare ()) (some (.num 9)) = false := by
  refine ⟨by decide, by decide, by decide, by decide, by decide⟩

/-- The C6 failing input: `RangeIntersection(Range(undefined,1), Range(1,undefined,true))`,
i.e. the intersection of `(-∞, 1]` with `(1, +∞)`. -/
def c6Inter : KeyRange Unit :=
  .intersection (.range ⟨none, some (.num 1), false, false⟩)
    (.range ⟨some (.num 1), none, true, false⟩)

/-- C6: `prepare` does not always return non-empty intervals. At the failing
input the sweep emits the single interval `(1, 1]`, which includes no value
at all, violating clause (a) of the invariant. -/
theorem c6_prepare_emits_empty_interval :
    c6Inter.prepare () = [⟨some (.num 1), some (.num 1), true, false⟩] ∧
    ∀ v : Value,
      Range.includes ⟨some (.num 1), some (.num 1), true, false⟩ (some v) = false := by
  refine ⟨by decide, fun v => ?_⟩
  rcases lt_trichotomy (cmp v (.num 1)) 0 with h | h | h <;>
    simp [Range.includes, h]

/-! Part: Records, tuples and the expression host -/

/-- Record field values: JS `undefined`, `null`, booleans, and members of the
key domain. Verified claims never store record-valued or function-valued
fields, so those are not modelled. -/
inductive JsVal where
  | undef
  | null
  | bool (b : Bool)
  | val (v : Value)
deriving DecidableEq

instance {ε α : Type} [DecidableEq ε] [DecidableEq α] : DecidableEq (Except ε α)
  | .ok x, .ok y =>
    if h : x = y then isTrue (by rw [h])
    else isFalse (by intro hc; cases hc; exact h rfl)
  | .error x, .error y =>
    if h : x = y then isTrue (by rw [h])
    else isFalse (by intro hc; cases hc; exact h rfl)
  | .ok _, .error _ => isFalse (by intro hc; cases hc)
  | .error _, .ok _ => isFalse (by intro hc; cases hc)

/-- A record: string-keyed fields in property order. -/
abbrev Record := List (String × JsVal)

/-- A tuple: one record per source name in scope (§3). -/
abbrev Tuple := List (String × Record)

/-- `Object.assign({}, a, b)`: keys of `a` in order with values overridden
by `b`, then the keys only in `b` in order. -/
def assignAssoc {α : Type} (a b : List (String × α)) : List (String × α) :=
  a.map (fun p => (p.1, (b.lookup p.1).getD p.2)) ++
    b.filter (fun p => (a.lookup p.1).isNone)

/-- JS truthiness of a field value. -/
def truthy : JsVal → Bool
  | .undef => false
  | .null => false
  | .bool b => b
  | .val (.num n) => n ≠ 0
  | .val (.str s) => s ≠ ""
  | .val _ => true

/-- The expression host (§4.1/§6.2) on the fragment the compiled predicates
of the verified claims use: literals, one-segment member access on a source
record, `$$cmp` calls, the rewritten comparisons against 0, boolean
operators. `none` models a thrown evaluation exception or an unmodelled
construct. `===` on two evaluated field values is structural: the claims
only compare primitives, where JS strict equality is structural too. -/
def evalNode : JsNode → Tuple → Option JsVal
  | .numLit n, _ => some (.val (.num n))
  | .ident _, _ => none
  | .member (.ident name) prop, t =>
    match t.lookup name with
    | none => none
    | some r => some ((r.lookup prop).getD .undef)
  | .member _ _, _ => none
  | .call (.ident f) a b, t =>
    if f = "$$cmp" ∨ f = "cmp" then
      match evalNode a t, evalNode b t with
      | some (.val va), some (.val vb) => some (.val (.num (cmp va vb)))
      | _, _ => none
    else none
  | .call _ _ _, _ => none
  | .logical .and l r, t =>
    match evalNode l t with
    | none => none
    | some vl => if truthy vl then evalNode r t else some vl
  | .logical .or l r, t =>
    match evalNode l t with
    | none => none
    | some vl => if truthy vl then some vl else evalNode r t
  | .binary op l r, t =>
    match evalNode l t, evalNode r t with
    | some vl, some vr =>
      match op with
      | .eqq => some (.bool (vl == vr))
      | _ =>
        match vl, vr with
        | .val (.num x), .val (.num y) =>
          some (.bool (match op with
            | .ge => decide (x ≥ y)
            | .gt => decide (x > y)
            | .le => decide (x ≤ y)
            | .lt => decide (x < y)
            | .eqq => x == y))
        | _, _ => none
    | _, _ => none
  | .unaryNot e, t =>
    match evalNode e t with
    | none => none
    | some v => some (.bool (!truthy v))

/-- `compileNode` as used for key-range bound functions: evaluate the node;
`undefined` and non-key results give no bound (the host comparator would
throw on a non-key, which no translated call site reaches). -/
def compileNode (n : JsNode) : Tuple → Option Value := fun t =>
  match evalNode n t with
  | some (.val v) => some v
  | _ => none

/-! Part: Range extraction (§4.3, `extractKeyRanges` of expression.js) -/

/-- The JS test `name[0] === '$'` on a possibly empty identifier. -/
def startsWithDollar (name : String) : Bool :=
  match name.data with
  | [] => false
  | c :: _ => c = '$'

/-- `extractKeyPath`: walk a member chain of identifier accesses down to an
identifier root that does not start with `$`; returns the root (dependency)
name and the dotted path (`none` when the node is a bare identifier). -/
def extractKeyPath : JsNode → Option String → Option (String × Option String)
  | .member obj prop, acc =>
    extractKeyPath obj (some (match acc with
      | none => prop
      | some rest => prop ++ "." ++ rest))
  | .ident name, acc =>
    if startsWithDollar name then none else some (name, acc)
  | _, _ => none

/-- Set a key in an association list, overwriting in place or appending. -/
def setAssoc {α : Type} : List (String × α) → String → α → List (String × α)
  | [], k, v => [(k, v)]
  | (k1, v1) :: rest, k, v =>
    if k1 = k then (k1, v) :: rest else (k1, v1) :: setAssoc rest k v

/-- The `dependency → keyPath → KeyRange` map built by `extractKeyRanges`. -/
abbrev KRMap := List (String × List (String × KeyRange Tuple))

/-- Set one `dependency → keyPath → range` entry of a `KRMap`. -/
def krmapSet (m : KRMap) (dep path : String) (kr : KeyRange Tuple) : KRMap :=
  match m.lookup dep with
  | none => setAssoc m dep [(path, kr)]
  | some paths => setAssoc m dep (setAssoc paths path kr)

/-- The interval `extractKeyRanges` builds for `cmp(keyPath, base) <op> 0`
(or, when `flipped` — complemented or with the key path on the right — the
inverted interval), as a `RangeExpression` whose bound functions compile
`base`. A direct translation of the field mutations of the source into one
case split. -/
def rangeForOp (op : BinOp) (flipped : Bool) (base : JsNode) : KeyRange Tuple :=
  let fn := some (base, compileNode base)
  match op with
  | .eqq => .expression fn fn false false
  | .ge => if flipped then .expression none fn false true else .expression fn none false false
  | .gt => if flipped then .expression none fn false false else .expression fn none true false
  | .le => if flipped then .expression fn none true false else .expression none fn false false
  | .lt => if flipped then .expression fn none false false else .expression none fn false true

/-- The binary-comparison case of `extractKeyRanges`: try both argument
positions of `$$cmp`; a complemented equality contributes nothing; the
JS property-key coercion of an undefined path is the string "undefined". -/
def binaryRanges (op : BinOp) (comp : Bool) (a0 a1 : JsNode) : KRMap :=
  let ins (m : KRMap) (arg other : JsNode) (flipped : Bool) : KRMap :=
    match extractKeyPath arg none with
    | none => m
    | some (dep, path) =>
      if op = .eqq ∧ comp then m
      else krmapSet m dep (path.getD "undefined") (rangeForOp op flipped other)
  ins (ins [] a0 a1 comp) a1 a0 (!comp)

/-- The logical case of `extractKeyRanges`: combine the `(dependency,
keyPath)` pairs present in both branches — intersection for `&&`, union for
`||`, flipped under complement — and drop one-sided pairs. -/
def combineMaps (op : LogicalOp) (comp : Bool) (left right : KRMap) : KRMap :=
  left.foldl (fun acc depPaths =>
    match right.lookup depPaths.1 with
    | none => acc
    | some rpaths =>
      depPaths.2.foldl (fun acc pathKr =>
        match rpaths.lookup pathKr.1 with
        | none => acc
        | some rkr =>
          let intersect := (decide (op = .and)).xor comp
          krmapSet acc depPaths.1 pathKr.1
            (if intersect then .intersection pathKr.2 rkr else .union pathKr.2 rkr)) acc) []

/-- `extractKeyRanges` (§4.3): `none` models the JS `undefined` result for a
disallowed operator shape; any other non-matching node yields the empty map.
The `dependencies` argument of the source only shapes the compiled bound
function's destructuring and has no bearing on the extracted ranges, so it
is dropped. -/
def extractKeyRanges : JsNode → Bool → Option KRMap
  | .unaryNot a, comp => extractKeyRanges a (!comp)
  | .logical op l r, comp =>
    match extractKeyRanges l comp, extractKeyRanges r comp with
    | some left, some right => some (combineMaps op comp left right)
    | _, _ => none
  | .binary op lhs rhs, comp =>
    match lhs, rhs with
    | .call (.ident c) a0 a1, .numLit 0 =>
      if c = "$$cmp" then some (binaryRanges op comp a0 a1) else none
    | _, _ => none
  | _, _ => some []

/-! Part: Index selection and execution (§4.9, indexeddb.js) -/

/-- A store or index key path: absent, a single path, or a composite list. -/
inductive KeyPathSpec where
  | nullPath
  | single (path : String)
  | comp (paths : List String)
deriving DecidableEq

/-- `getKeyPaths`: the path list plus whether the key is composite. -/
def getKeyPaths : KeyPathSpec → List String × Bool
  | .nullPath => ([], false)
  | .single p => ([p], false)
  | .comp ps => (ps, true)

/-- `usableKeyRanges`: the longest key-path prefix with a range for every
component in which every range before the last is an equality. -/
def usableKeyRanges (keyRanges : List (String × KeyRange Tuple)) :
    List String → List (KeyRange Tuple)
  | [] => []
  | kp :: rest =>
    match keyRanges.lookup kp with
    | none => []
    | some kr => kr :: (if kr.isEquality then usableKeyRanges keyRanges rest else [])

/-- A secondary index of a persistent store. -/
structure IdbIndex where
  name : String
  keyPath : KeyPathSpec
  multiEntry : Bool
  unique : Bool

/-- A persistent store: primary key path, secondary indexes, records. -/
structure IdbStore where
  keyPath : KeyPathSpec
  indexes : List IdbIndex
  records : List Record

/-- The result of `chooseBestIndex` when any index is usable. -/
structure BestIndex where
  ranges : List (KeyRange Tuple)
  indexKeyPath : KeyPathSpec
  primary : Bool
  array : Bool

/-- `PersistentObjectStore.chooseBestIndex`: primary first; otherwise the
two loops over the secondary indexes, where the last usable non-multi-entry
index wins and the second loop lets a unique one override. `none` models the
empty object `{}` (full scan). -/
def chooseBestIndex (store : IdbStore)
    (keyRanges : Option (List (String × KeyRange Tuple))) : Option BestIndex :=
  match keyRanges with
  | none => none
  | some krs =>
    let primaryPaths := getKeyPaths store.keyPath
    let ranges := usableKeyRanges krs primaryPaths.1
    if !ranges.isEmpty then some ⟨ranges, store.keyPath, true, primaryPaths.2⟩
    else
      let afterAll := store.indexes.foldl (fun best idx =>
        if !idx.multiEntry then
          let paths := getKeyPaths idx.keyPath
          let ranges := usableKeyRanges krs paths.1
          if !ranges.isEmpty then some ⟨ranges, idx.keyPath, false, paths.2⟩ else best
        else best) (none : Option BestIndex)
      store.indexes.foldl (fun best idx =>
        if !idx.multiEntry && idx.unique then
          let paths := getKeyPaths idx.keyPath
          let ranges := usableKeyRanges krs paths.1
          if !ranges.isEmpty then some ⟨ranges, idx.keyPath, false, paths.2⟩ else best
        else best) afterAll

/-- The key of a record under a key path (`keyPathGetter`): `none` when a
component is not a valid key (such records are absent from the index).
Out-of-line primary keys are not used by any verified claim. -/
def keyPathValue (spec : KeyPathSpec) (r : Record) : Option Value :=
  match spec with
  | .nullPath => none
  | .single p =>
    match (r.lookup p).getD .undef with
    | .val v => some v
    | _ => none
  | .comp ps =>
    (ps.mapM (fun p =>
      match (r.lookup p).getD .undef with
      | .val v => some v
      | _ => none)).map .arr

/-- Stable insertion of `x` into a list sorted by a three-way comparator;
on ties the inserted element stays before later elements, matching the
stable JS array sort. -/
def insertSorted {α : Type} (cmpFn : α → α → Int) (x : α) : List α → List α
  | [] => [x]
  | y :: ys => if cmpFn x y ≤ 0 then x :: y :: ys else y :: insertSorted cmpFn x ys

/-- Stable sort by a three-way comparator (the JS `Array.prototype.sort`
contract for a consistent comparator). -/
def sortWith {α : Type} (cmpFn : α → α → Int) : List α → List α
  | [] => []
  | x :: xs => insertSorted cmpFn x (sortWith cmpFn xs)

/-- `idbRange`: no native range when both bounds are unbounded. -/
def idbNativeRange (r : Range) : Option Range :=
  if r.lower = none ∧ r.upper = none then none else some r

/-- An index cursor (`rangeStream`/`openCursor`): the records that have a
key under `keyOf`, in ascending key order, restricted to the native range. -/
def openCursor (keyOf : Record → Option Value) (records : List Record)
    (nr : Option Range) : List Record :=
  ((sortWith (fun a b => cmp a.1 b.1)
      (records.filterMap (fun r => (keyOf r).map (fun k => (k, r))))).filter
    (fun p =>
      match nr with
      | none => true
      | some range => range.includes (some p.1))).map (·.2)

/-- The runtime error thrown when an initial composite range of a chosen
index is not an equality. -/
inductive ExecErr where
  | initialRangesNotEqualities
deriving DecidableEq

/-- `compositeRange(equals, range)` of range.js: prepend the equality prefix
to both bounds; open a closed or missing upper bound by replacing the last
component with its `nextUp`. `nextUp` (backed by the external `ulp` library
for numbers) is a parameter. -/
def compositeRange (nextUp : Value → Value) (equals : List Value) (range : Range) : Range :=
  let lower : Option Value := some (.arr (match range.lower with
    | some l => equals ++ [l]
    | none => equals))
  match range.upper with
  | some u =>
    if !range.upperOpen then
      ⟨lower, some (.arr (equals ++ [nextUp u])), range.lowerOpen, true⟩
    else
      ⟨lower, some (.arr (equals ++ [u])), range.lowerOpen, range.upperOpen⟩
  | none =>
    match equals.getLast? with
    | none => ⟨lower, none, range.lowerOpen, range.upperOpen⟩
    | some lastV =>
      ⟨lower, some (.arr (equals.dropLast ++ [nextUp lastV])), range.lowerOpen, true⟩

/-- The equality-prefix loop of `PersistentObjectStore.execute`: prepare
each initial range; an empty preparation short-circuits to an empty stream
(`ok none`); more than one interval or a non-equality throws; otherwise
collect the lower bounds. -/
def collectEquals (ctx : Tuple) : List (KeyRange Tuple) →
    Except ExecErr (Option (List Value))
  | [] => .ok (some [])
  | kr :: rest =>
    match kr.prepare ctx with
    | [] => .ok none
    | p :: ps =>
      if ps ≠ [] ∨ !p.isEquality then .error .initialRangesNotEqualities
      else
        match collectEquals ctx rest with
        | .error e => .error e
        | .ok none => .ok none
        | .ok (some es) => .ok (some ((p.lower.getD (.num 0)) :: es))

/-- `PersistentObjectStore.execute`: full scan when no index is usable;
otherwise the equality prefix is collected and, for each prepared interval
of the final range, a cursor is opened (through `compositeRange` when the
chosen index key is composite). -/
def storeExecute (nextUp : Value → Value) (store : IdbStore)
    (keyRanges : Option (List (String × KeyRange Tuple))) (ctx : Tuple) :
    Except ExecErr (List Record) :=
  match chooseBestIndex store keyRanges with
  | none => .ok (openCursor (keyPathValue store.keyPath) store.records none)
  | some best =>
    match collectEquals ctx best.ranges.dropLast with
    | .error e => .error e
    | .ok none => .ok []
    | .ok (some equals) =>
      match best.ranges.getLast? with
      | none => .ok []
      | some finalKr =>
        let keyOf := keyPathValue best.indexKeyPath
        .ok ((finalKr.prepare ctx).foldl (fun acc r =>
          let r := if best.array then compositeRange nextUp equals r else r
          acc ++ openCursor keyOf store.records (idbNativeRange r)) [])

/-- Fail-fast conjunction of a `NamedRelation`'s attached predicates
(`applyPredicates` of tree.js): a falsy predicate short-circuits; `none`
models an evaluation exception. -/
def predsPass (preds : List JsNode) (t : Tuple) : Option Bool :=
  match preds with
  | [] => some true
  | p :: rest =>
    match evalNode p t with
    | none => none
    | some v => if truthy v then predsPass rest t else some false

/-- `NamedRelation.execute` over a persistent store: wrap each emitted
record under the source name and filter by the attached predicates
(evaluated on the context tuple merged with the candidate). `none` models a
stream error. -/
def namedRelationExecute (nextUp : Value → Value) (name : String) (store : IdbStore)
    (krMap : Option (List (String × KeyRange Tuple))) (preds : List JsNode)
    (ctx : Tuple) : Option (List Tuple) :=
  match storeExecute nextUp store krMap ctx with
  | .error _ => none
  | .ok recs =>
    (recs.map (fun r => [(name, r)])).foldr (fun t acc =>
      match acc, predsPass preds (assignAssoc ctx t) with
      | some kept, some b => if b then some (t :: kept) else some kept
      | _, _ => none) (some [])

/-! Part: C2: the composite-index scenario (spec §8, Scenario E) -/

/-- The first conjunct of the C2 predicate after comparison rewriting:
`$$cmp(inventoryItem.storeId, 1) === 0`. -/
def c2Conj1 : JsNode :=
  .binary .eqq
    (.call (.ident "$$cmp") (.member (.ident "inventoryItem") "storeId") (.numLit 1))
    (.numLit 0)

/-- The second conjunct of the C2 predicate after comparison rewriting:
`$$cmp(inventoryItem.isbn, 200000) > 0`. -/
def c2Conj2 : JsNode :=
  .binary .gt
    (.call (.ident "$$cmp") (.member (.ident "inventoryItem") "isbn") (.numLit 200000))
    (.numLit 0)

/-- `Term.merge`: two same-dependency-set terms merge into one term whose
node is the conjunction of their nodes. -/
def termMergeNode (a b : JsNode) : JsNode := .logical .and a b

/-- The single term the C2 predicate parses to: both conjuncts depend only
on `inventoryItem`, so `TermGroups` merges them at parse time. -/
def c2TermNode : JsNode := termMergeNode c2Conj1 c2Conj2

/-- An inventory record of the C2 store. -/
def c2Record (sid isbn qty : Int) : Record :=
  [("storeId", .val (.num sid)), ("isbn", .val (.num isbn)), ("quantity", .val (.num qty))]

/-- The C2 store: primary key `(storeId, isbn)`, five inventory records. -/
def c2Store : IdbStore where
  keyPath := .comp ["storeId", "isbn"]
  indexes := []
  records :=
    [c2Record 1 123456 3, c2Record 1 234567 4, c2Record 1 345678 5,
     c2Record 2 123456 1, c2Record 2 234567 2]

/-- C2: the planner does not produce the claimed composite-index scan. The
merged term's `extractKeyRanges` drops both one-sided `(dependency, keyPath)`
pairs of the conjunction, so no key ranges reach the source,
`chooseBestIndex` finds no usable index (a full table scan), and only the
predicate filter produces the two claimed records. -/
theorem c2_conjunction_plans_full_scan (nextUp : Value → Value) :
    extractKeyRanges c2TermNode false = some [] ∧
    chooseBestIndex c2Store (some []) = none ∧
    namedRelationExecute nextUp "inventoryItem" c2Store (some []) [c2TermNode] [] =
      some [[("inventoryItem", c2Record 1 234567 4)],
            [("inventoryItem", c2Record 1 345678 5)]] := by
  refine ⟨rfl, rfl, ?_⟩
  have h2 : chooseBestIndex c2Store (some []) = none := rfl
  simp only [namedRelationExecute, storeExecute, h2]
  decide

/-! Part: Predicates as stream filters (tree.js `applyPredicates`) -/

/-- `applyPredicates`: filter a tuple stream by the fail-fast conjunction of
predicates, each evaluated on the context tuple merged with the candidate;
`none` models a stream error from an evaluation exception. -/
def applyPredicatesF (preds : List JsNode) (ctxTuple : Tuple)
    (tuples : List Tuple) : Option (List Tuple) :=
  tuples.foldr (fun t acc =>
    match acc, predsPass preds (assignAssoc ctxTuple t) with
    | some kept, some b => if b then some (t :: kept) else some kept
    | _, _ => none) (some [])

theorem applyPredicatesF_nil (ctxTuple : Tuple) (tuples : List Tuple) :
    applyPredicatesF [] ctxTuple tuples = some tuples := by
  induction tuples with
  | nil => rfl
  | cons t ts ih =>
    unfold applyPredicatesF at ih ⊢
    rw [List.foldr_cons, ih]
    rfl

/-! Part: C4: the outer-join sentinel (tree.js `Join.execute`) -/

/-- The sentinel record a non-inner join substitutes for a missing right
side: `{$otherwise: true}`. -/
def otherwiseRecord : Record := [("$otherwise", .bool true)]

/-- The otherwise-tuple of a non-inner join: every source name of the right
relation's schema mapped to the sentinel record. -/
def otherwiseTuple (rSchemaNames : List String) : Tuple :=
  rSchemaNames.map (fun n => (n, otherwiseRecord))

/-- The tuple-generation stage of `Join.execute` for a left-outer join: for
each left tuple, execute the right side in a context extended with it and
merge each right tuple onto the left one; `defaultIfEmpty` substitutes the
left tuple merged with the otherwise-tuple when the right side is empty. -/
def outerJoinTuples (rSchemaNames : List String) (leftTuples : List Tuple)
    (right : Tuple → List Tuple) (ctxTuple : Tuple) : List Tuple :=
  leftTuples.flatMap (fun a =>
    let rts := (right (assignAssoc ctxTuple a)).map (fun b => assignAssoc a b)
    if rts.isEmpty then [assignAssoc a (otherwiseTuple rSchemaNames)] else rts)

/-- `Join.execute` for a left-outer join: the generated tuples filtered by
the join's attached predicates. -/
def outerJoinExecute (rSchemaNames : List String) (preds : List JsNode)
    (leftTuples : List Tuple) (right : Tuple → List Tuple) (ctxTuple : Tuple) :
    Option (List Tuple) :=
  applyPredicatesF preds ctxTuple (outerJoinTuples rSchemaNames leftTuples right ctxTuple)

/-- The left tuple of the C4 counterexample (Scenario C's fourth thing). -/
def c4Left : Tuple :=
  [("thing", [("id", .val (.num 4)), ("name", .val (.str "Pie")),
              ("type_id", .val (.num 3))])]

/-- C4 counterexample: with right schema `{type}` and an empty right side,
the emitted tuple does NOT map `type` to `{otherwise: true}` — the sentinel
key is `$otherwise`. -/
theorem c4_sentinel_key_not_otherwise :
    ¬ (outerJoinTuples ["type"] [c4Left] (fun _ => []) [] =
       [assignAssoc c4Left [("type", [("otherwise", JsVal.bool true)])]]) := by
  decide

/-- C4 amended: for an outer join with no attached predicates, a left tuple
for which the right side yields zero tuples contributes exactly one output
tuple: the left tuple extended so that every right source name maps to the
sentinel record `{$otherwise: true}`. -/
theorem c4_outer_join_emits_otherwise_tuple (rSchemaNames : List String)
    (pre post : List Tuple) (a : Tuple) (right : Tuple → List Tuple)
    (ctxTuple : Tuple) (h : right (assignAssoc ctxTuple a) = []) :
    outerJoinTuples rSchemaNames (pre ++ a :: post) right ctxTuple =
      outerJoinTuples rSchemaNames pre right ctxTuple ++
        [assignAssoc a (otherwiseTuple rSchemaNames)] ++
        outerJoinTuples rSchemaNames post right ctxTuple ∧
    outerJoinExecute rSchemaNames [] (pre ++ a :: post) right ctxTuple =
      some (outerJoinTuples rSchemaNames pre right ctxTuple ++
        [assignAssoc a (otherwiseTuple rSchemaNames)] ++
        outerJoinTuples rSchemaNames post right ctxTuple) := by
  have hsplit : outerJoinTuples rSchemaNames (pre ++ a :: post) right ctxTuple =
      outerJoinTuples rSchemaNames pre right ctxTuple ++
        [assignAssoc a (otherwiseTuple rSchemaNames)] ++
        outerJoinTuples rSchemaNames post right ctxTuple := by
    simp only [outerJoinTuples, List.flatMap_append, List.flatMap_cons, h,
      List.map_nil, List.isEmpty_nil, if_pos, List.append_assoc]
  refine ⟨hsplit, ?_⟩
  rw [outerJoinExecute, hsplit, applyPredicatesF_nil]

/-- Closed instance discharging the hypothesis of
`c4_outer_join_emits_otherwise_tuple` at a concrete input. -/
theorem c4_outer_join_witness :
    outerJoinExecute ["type"] [] [c4Left] (fun _ => []) [] =
      some (outerJoinTuples ["type"] [] (fun _ => []) [] ++
        [assignAssoc c4Left (otherwiseTuple ["type"])] ++
        outerJoinTuples ["type"] [] (fun _ => []) []) :=
  (c4_outer_join_emits_otherwise_tuple ["type"] [] [] c4Left (fun _ => []) [] rfl).2

/-! Part: C3/C5: the executed OrderBy comparison (tree.js `OrderBy.execute`) -/

/-- One entry of an OrderBy ordering: compiled expression, sort direction
(`order`, +1 or -1) and null placement (`nulls`, +1 = later, -1 = earlier). -/
structure OrderingEntry where
  expression : Tuple → JsVal
  order : Int
  nulls : Int

/-- Exceptions observable from the executed comparison: the strict-mode
ReferenceError from the stray identifier `nn`, and the host comparator's
DataError on a non-key value. -/
inductive CompareErr where
  | referenceErrorNN
  | invalidKey
deriving DecidableEq

/-- The executed OrderBy comparison, translated from tree.js lines 429-451
including the stray identifier `nn`: when the first value is null/undefined
and the second is not `undefined`, the comparator reads the undeclared
variable `nn` and throws a ReferenceError. -/
def orderingCompare (ordering : List OrderingEntry) (a b : Tuple) :
    Except CompareErr Int :=
  match ordering with
  | [] => .ok 0
  | e :: rest =>
    let aa := e.expression a
    let bb := e.expression b
    if aa = .undef ∨ aa = .null then
      if bb ≠ .undef then .error .referenceErrorNN
      else orderingCompare rest a b
    else
      if bb = .undef ∨ bb = .null then .ok (-e.nulls)
      else
        match aa, bb with
        | .val va, .val vb =>
          let c := cmp va vb
          if c ≠ 0 then .ok (c * e.order) else orderingCompare rest a b
        | _, _ => .error .invalidKey

/-- The ordering entry of the C3 failing input: ascending on field `v`,
nulls last. -/
def c3Entry : OrderingEntry :=
  ⟨fun t => (((t.lookup "r").getD []).lookup "v").getD .undef, 1, 1⟩

/-- The C3 tuple whose ordering expression evaluates to `null`. -/
def c3TupleNull : Tuple := [("r", [("v", .null)])]

/-- The C3 tuple whose ordering expression evaluates to `5`. -/
def c3TupleFive : Tuple := [("r", [("v", .val (.num 5))])]

/-- C3: the executed comparison is not the claimed symmetric null handling.
With a null on the left and a value on the right it throws the ReferenceError
of the stray identifier `nn` instead of returning the `nulls` flag; the
mirrored pair returns `-nulls` as claimed. -/
theorem c3_null_comparison_throws :
    orderingCompare [c3Entry] c3TupleNull c3TupleFive = .error .referenceErrorNN ∧
    orderingCompare [c3Entry] c3TupleFive c3TupleNull = .ok (-1) :=
  ⟨rfl, rfl⟩

/-! Part: C5: ordering fusion in finalization (querybuilder.js `hoistPredicates`) -/

/-- A subtree of OrderBy nodes over a tuple source: the shape the
ordering-fusion rewrite operates on. -/
inductive OrderPlan where
  | source (tuples : List Tuple)
  | orderBy (ordering : List OrderingEntry) (child : OrderPlan)

/-- The OrderBy handler of `hoistPredicates` along the traversal: on
entering an OrderBy whose child is an OrderBy, set
`ordering := child.ordering.concat(ordering)` and lift the grandchild; the
traversal then descends into the new child. -/
def hoistOrderBy : OrderPlan → OrderPlan
  | .source ts => .source ts
  | .orderBy o c =>
    match c with
    | .orderBy o2 g => .orderBy (o2 ++ o) (hoistOrderBy g)
    | .source ts => .orderBy o (.source ts)

/-- `Except.toOption`-style projection. -/
def exceptOk {ε α : Type} : Except ε α → Option α
  | .ok a => some a
  | .error _ => none

/-- `OrderBy.execute`: collect the child's tuples and stable-sort them with
the executed comparison. A thrown comparison surfaces as a stream error
(`none`); this model checks every pair, which agrees with the JS array sort
whenever no pair of inputs makes the comparator throw — the situation of
every theorem below. -/
def orderBySort (ordering : List OrderingEntry) (ts : List Tuple) :
    Option (List Tuple) :=
  if ts.all (fun a => ts.all (fun b => (exceptOk (orderingCompare ordering a b)).isSome))
  then some (sortWith (fun a b => (exceptOk (orderingCompare ordering a b)).getD 0) ts)
  else none

/-- Execute a tree of OrderBy nodes over its source. -/
def execOrderPlan : OrderPlan → Option (List Tuple)
  | .source ts => some ts
  | .orderBy o c => (execOrderPlan c).bind (orderBySort o)

/-- Sequential composition of three-way comparison results: fall through to
the continuation exactly on an `ok 0` tie. -/
def tieThen (r k : Except CompareErr Int) : Except CompareErr Int :=
  match r with
  | .ok c => if c = 0 then k else .ok c
  | .error e => .error e

/-- The executed comparison of a concatenated ordering walks the first list
and falls through to the second exactly on a full tie, provided no entry of
the first list has a zero `order` or `nulls` flag (the builder only emits
±1). -/
theorem orderingCompare_append (l1 l2 : List OrderingEntry) (a b : Tuple)
    (h : ∀ e ∈ l1, e.order ≠ 0 ∧ e.nulls ≠ 0) :
    orderingCompare (l1 ++ l2) a b =
      tieThen (orderingCompare l1 a b) (orderingCompare l2 a b) := by
  induction l1 with
  | nil => simp [orderingCompare, tieThen]
  | cons e rest ih =>
    have he := h e (List.mem_cons_self e rest)
    have hrest : ∀ x ∈ rest, x.order ≠ 0 ∧ x.nulls ≠ 0 :=
      fun x hx => h x (List.mem_cons_of_mem e hx)
    simp only [List.cons_append, orderingCompare]
    by_cases h1 : e.expression a = .undef ∨ e.expression a = .null
    · simp only [if_pos h1]
      by_cases h2 : e.expression b ≠ .undef
      · simp [if_pos h2, tieThen]
      · simp only [if_neg h2]
        exact ih hrest
    · simp only [if_neg h1]
      by_cases h2 : e.expression b = .undef ∨ e.expression b = .null
      · have hnn : -e.nulls ≠ 0 := fun hc => he.2 (by omega)
        simp [if_pos h2, tieThen, hnn]
      · simp only [if_neg h2]
        match ha : e.expression a, hb : e.expression b with
        | .val va, .val vb =>
          by_cases hc : cmp va vb ≠ 0
          · have hmul : cmp va vb * e.order ≠ 0 := mul_ne_zero hc he.1
            simp [if_pos hc, tieThen, hmul]
          · simp only [if_neg hc]
            exact ih hrest
        | .undef, _ => exact absurd (Or.inl ha) h1
        | .null, _ => exact absurd (Or.inr ha) h1
        | .bool _, _ => simp [tieThen]
        | .val _, .undef => exact absurd (Or.inl hb) h2
        | .val _, .null => exact absurd (Or.inr hb) h2
        | .val _, .bool _ => simp [tieThen]

/-- C5 amended: fusing two nested OrderBys concatenates the child's
(inner) ordering BEFORE the outer one, so the fused executed comparison
walks the inner entries first and consults the outer entries only to break
full ties. -/
theorem c5_orderby_fusion_inner_priority (o o2 : List OrderingEntry) (g : OrderPlan)
    (h : ∀ e ∈ o2, e.order ≠ 0 ∧ e.nulls ≠ 0) :
    hoistOrderBy (.orderBy o (.orderBy o2 g)) = .orderBy (o2 ++ o) (hoistOrderBy g) ∧
    ∀ a b : Tuple, orderingCompare (o2 ++ o) a b =
      tieThen (orderingCompare o2 a b) (orderingCompare o a b) :=
  ⟨rfl, fun a b => orderingCompare_append o2 o a b h⟩

/-- The outer ordering entry of the C5 counterexample: ascending on `a`. -/
def c5EntryA : OrderingEntry :=
  ⟨fun t => (((t.lookup "r").getD []).lookup "a").getD .undef, 1, 1⟩

/-- The inner ordering entry of the C5 counterexample: ascending on `b`. -/
def c5EntryB : OrderingEntry :=
  ⟨fun t => (((t.lookup "r").getD []).lookup "b").getD .undef, 1, 1⟩

/-- First tuple of the C5 counterexample: `a = 1`, `b = 2`. -/
def c5T1 : Tuple := [("r", [("a", .val (.num 1)), ("b", .val (.num 2))])]

/-- Second tuple of the C5 counterexample: `a = 2`, `b = 1`. -/
def c5T2 : Tuple := [("r", [("a", .val (.num 2)), ("b", .val (.num 1))])]

/-- The nested pair of the C5 counterexample: OrderBy `a` over OrderBy `b`. -/
def c5Nested : OrderPlan :=
  .orderBy [c5EntryA] (.orderBy [c5EntryB] (.source [c5T1, c5T2]))

/-- C5 counterexample: executing the fused node does not reproduce the
nested pair. The nested pair (inner sort by `b`, stable outer sort by `a`)
yields `[T1, T2]`; the fused node sorts by the combined list `[b, a]`
(inner first) and yields `[T2, T1]`. -/
theorem c5_fused_execution_differs_from_nested :
    execOrderPlan c5Nested = some [c5T1, c5T2] ∧
    execOrderPlan (hoistOrderBy c5Nested) = some [c5T2, c5T1] ∧
    execOrderPlan (hoistOrderBy c5Nested) ≠ execOrderPlan c5Nested := by
  refine ⟨rfl, rfl, by decide⟩

/-- Closed instance discharging the hypothesis of
`c5_orderby_fusion_inner_priority` at a concrete input. -/
theorem c5_orderby_fusion_witness :
    hoistOrderBy (.orderBy [c5EntryA] (.orderBy [c5EntryB] (.source [c5T1, c5T2]))) =
      .orderBy ([c5EntryB] ++ [c5EntryA]) (hoistOrderBy (.source [c5T1, c5T2])) ∧
    orderingCompare ([c5EntryB] ++ [c5EntryA]) c5T1 c5T2 =
      tieThen (orderingCompare [c5EntryB] c5T1 c5T2)
        (orderingCompare [c5EntryA] c5T1 c5T2) := by
  have h := c5_orderby_fusion_inner_priority [c5EntryA] [c5EntryB]
    (.source [c5T1, c5T2])
    (fun e he => by
      rw [List.mem_singleton] at he
      subst he
      exact ⟨one_ne_zero, one_ne_zero⟩)
  exact ⟨h.1, h.2 c5T1 c5T2⟩

/-! Part: C7: duplicate-key insert and transaction rollback
(jsonobjectstore.js `JSONObjectStore.put`, transaction.js `TransactionNode`) -/

/-- A tuple handed to `put`: the primary-key attribute plus the remaining
fields (`Object.assign({}, tuple)` with the key attribute deleted). -/
structure PutTuple where
  pk : Value
  fields : Record
deriving DecidableEq

/-- A transaction's view of one in-memory JSON store: the underlying
collection and the prototype-linked shadow. A shadow entry of `none` is an
own property explicitly assigned `undefined` (a pending deletion). Keys are
compared structurally; the claims never rely on the JS string coercion of
property keys. -/
structure JsonView where
  base : List (Value × Record)
  shadow : List (Value × Option Record)
deriving DecidableEq

/-- `view[k]`: own properties of the shadow first (an explicit `undefined`
hides the prototype), then the underlying object. -/
def jsonViewGet (v : JsonView) (k : Value) : Option Record :=
  match v.shadow.lookup k with
  | some x => x
  | none => v.base.lookup k

/-- Set a key in an association list over any key type, overwriting in
place or appending. -/
def setAssocK {κ α : Type} [BEq κ] : List (κ × α) → κ → α → List (κ × α)
  | [], k, v => [(k, v)]
  | (k1, v1) :: rest, k, v =>
    if k1 == k then (k1, v) :: rest else (k1, v1) :: setAssocK rest k v

/-- Remove a key from an association list (the JS `delete`). -/
def eraseAssocK {κ α : Type} [BEq κ] : List (κ × α) → κ → List (κ × α)
  | [], _ => []
  | (k1, v1) :: rest, k =>
    if k1 == k then rest else (k1, v1) :: eraseAssocK rest k

/-- The write loop of `JSONObjectStore.put`: each tuple's fields are stored
in the view under its primary key. -/
def jsonWriteAll (v : JsonView) (tuples : List PutTuple) : JsonView :=
  tuples.foldl (fun v t => { v with shadow := setAssocK v.shadow t.pk (some t.fields) }) v

/-- `JSONObjectStore.put` (the transaction-view variant): with
`overwrite = false`, scan the whole batch first and fail on the first
primary key already defined in the view — emitting a stream error carrying
that key and writing nothing — otherwise write every tuple. -/
def jsonPut (v : JsonView) (tuples : List PutTuple) (overwrite : Bool) :
    Except Value JsonView :=
  match if overwrite then none else tuples.find? (fun t => (jsonViewGet v t.pk).isSome) with
  | some t => .error t.pk
  | none => .ok (jsonWriteAll v tuples)

/-- `Transaction.onComplete` for the store: own properties of the shadow are
committed property by property; an explicit `undefined` deletes. -/
def jsonCommit (v : JsonView) : List (Value × Record) :=
  v.shadow.foldl (fun base p =>
    match p.2 with
    | none => eraseAssocK base p.1
    | some r => setAssocK base p.1 r) v.base

/-- One Write node's store call: the collected batch and its `overwrite`
option. -/
abbrev WriteBatch := List PutTuple × Bool

/-- Run a queue of Write batches against the transaction's view; the first
stream error stops the run. -/
def runWriteBatches (v : JsonView) : List WriteBatch → Except Value JsonView
  | [] => .ok v
  | (tuples, overwrite) :: rest =>
    match jsonPut v tuples overwrite with
    | .error e => .error e
    | .ok v1 => runWriteBatches v1 rest

/-- The observable outcome of running the queue inside a `TransactionNode`
(transaction.js lines 238-256): a stream error aborts the ambient
transaction, the overlay is discarded and the underlying collection is left
as it was; on success the transaction completes and the overlay commits. -/
def executeTransaction (base : List (Value × Record)) (batches : List WriteBatch) :
    List (Value × Record) :=
  match runWriteBatches ⟨base, []⟩ batches with
  | .ok v => jsonCommit v
  | .error _ => base

theorem runWriteBatches_append (v : JsonView) (l1 l2 : List WriteBatch) :
    runWriteBatches v (l1 ++ l2) =
      match runWriteBatches v l1 with
      | .ok v1 => runWriteBatches v1 l2
      | .error e => .error e := by
  induction l1 generalizing v with
  | nil => rfl
  | cons b rest ih =>
    obtain ⟨tuples, overwrite⟩ := b
    rw [List.cons_append]
    cases h : jsonPut v tuples overwrite with
    | error e => simp only [runWriteBatches, h]
    | ok v1 =>
      simp only [runWriteBatches, h]
      exact ih v1

/-- C7: a batch inserted with `overwrite = false` containing a primary key
already defined in the transaction's view makes `put` emit a stream error
(carrying the duplicate key) without writing; the enclosing TransactionNode
aborts the transaction, the overlay is discarded, and none of the writes
queued earlier in the same transaction persist to the underlying
collection. -/
theorem c7_duplicate_insert_rolls_back (base : List (Value × Record))
    (pre post : List WriteBatch) (tuples : List PutTuple) (v1 : JsonView)
    (hpre : runWriteBatches ⟨base, []⟩ pre = .ok v1)
    (hdup : (tuples.find? (fun t => (jsonViewGet v1 t.pk).isSome)).isSome) :
    (∃ k, jsonPut v1 tuples false = .error k) ∧
    executeTransaction base (pre ++ (tuples, false) :: post) = base := by
  obtain ⟨t, ht⟩ := Option.isSome_iff_exists.mp hdup
  have herr : jsonPut v1 tuples false = .error t.pk := by
    unfold jsonPut
    rw [if_neg (by simp), ht]
  refine ⟨⟨t.pk, herr⟩, ?_⟩
  unfold executeTransaction
  rw [runWriteBatches_append, hpre]
  show (match runWriteBatches v1 ((tuples, false) :: post) with
        | .ok v => jsonCommit v
        | .error _ => base) = base
  show (match (match jsonPut v1 tuples false with
               | .error e => (.error e : Except Value JsonView)
               | .ok v2 => runWriteBatches v2 post) with
        | .ok v => jsonCommit v
        | .error _ => base) = base
  rw [herr]

/-- Closed instance discharging the hypotheses of
`c7_duplicate_insert_rolls_back` at a concrete input: a queued insert of key
555 followed by an insert of key 123456, which already exists in the store. -/
theorem c7_duplicate_insert_witness :
    executeTransaction [(.num 123456, [("title", .val (.str "Quarry Memories"))])]
      ([([⟨.num 555, [("title", .val (.str "New Book"))]⟩], false)] ++
        [([⟨.num 123456, [("title", .val (.str "Duplicate"))]⟩], false)]) =
      [(.num 123456, [("title", .val (.str "Quarry Memories"))])] :=
  (c7_duplicate_insert_rolls_back
    [(.num 123456, [("title", .val (.str "Quarry Memories"))])]
    [([⟨.num 555, [("title", .val (.str "New Book"))]⟩], false)]
    []
    [⟨.num 123456, [("title", .val (.str "Duplicate"))]⟩]
    ⟨[(.num 123456, [("title", .val (.str "Quarry Memories"))])],
     [(.num 555, some [("title", .val (.str "New Book"))])]⟩
    (by decide) (by decide)).2

/-! Part: C8: the two-tick auto-complete (transaction.js `Transaction.delayComplete`) -/

/-- The observable state of an in-memory `Transaction`: whether it has
settled, and how far the pending `setImmediate` chain has advanced
(`some 2` right after `delayComplete()`, `some 1` after the first deferred
tick, `none` when no callback is pending). -/
structure TxnState where
  settled : Bool
  pending : Option Nat
deriving DecidableEq

/-- The events of the C8 scenario: `delayComplete()` calls and event-loop
ticks that run the pending deferred callback. `complete()`/`abort()` are
never called externally in the modelled scenario. -/
inductive TxnEvent where
  | delay
  | tick
deriving DecidableEq

/-- One step: `delayComplete` clears any pending callback (`clearImmediate`)
and arms the two-tick chain; a tick advances the chain, the second tick
running `complete()` (idempotent: a settled transaction stays settled). -/
def txnStep (s : TxnState) : TxnEvent → TxnState
  | .delay => { s with pending := some 2 }
  | .tick =>
    match s.pending with
    | some 2 => { s with pending := some 1 }
    | some 1 => { settled := true, pending := none }
    | _ => s

/-- The state right after the constructor, which calls `delayComplete()`. -/
def txnInit : TxnState := ⟨false, some 2⟩

/-- Run a transaction through a sequence of events. -/
def runTxn (es : List TxnEvent) : TxnState := es.foldl txnStep txnInit

theorem txn_ticks_fix (s : TxnState) (h : s.pending = none) :
    ∀ k, List.foldl txnStep s (List.replicate k .tick) = s := by
  intro k
  induction k with
  | zero => rfl
  | succ k ih =>
    rw [List.replicate_succ, List.foldl_cons]
    have hstep : txnStep s .tick = s := by
      show (match s.pending with
            | some 2 => { s with pending := some 1 }
            | some 1 => ({ settled := true, pending := none } : TxnState)
            | _ => s) = s
      rw [h]
    rw [hstep]
    exact ih

/-- C8: a transaction on which `complete()`/`abort()` are never called
settles exactly two deferred ticks after the most recent `delayComplete()`:
whatever happened before (`es`, including earlier delays and ticks — a
`delayComplete` cancels any pending callback and re-arms the countdown), a
`delayComplete` followed by `n` idle ticks leaves the transaction settled
iff it was already settled or `n ≥ 2`. -/
theorem c8_two_tick_auto_complete (es : List TxnEvent) (n : Nat) :
    (runTxn (es ++ .delay :: List.replicate n .tick)).settled =
      ((runTxn es).settled || decide (2 ≤ n)) := by
  unfold runTxn
  rw [List.foldl_append, List.foldl_cons]
  have hdelay : txnStep (List.foldl txnStep txnInit es) .delay =
      { List.foldl txnStep txnInit es with pending := some 2 } := rfl
  rw [hdelay]
  match n with
  | 0 => simp
  | 1 =>
    rw [List.replicate_succ, List.foldl_cons]
    simp [txnStep]
  | (k + 2) =>
    rw [List.replicate_succ, List.foldl_cons, List.replicate_succ, List.foldl_cons]
    have h1 : txnStep { List.foldl txnStep txnInit es with pending := some 2 } .tick =
        { List.foldl txnStep txnInit es with pending := some 1 } := rfl
    have h2 : txnStep { List.foldl txnStep txnInit es with pending := some 1 } .tick =
        ⟨true, none⟩ := rfl
    rw [h1, h2, txn_ticks_fix ⟨true, none⟩ rfl k]
    simp

/-! Part: C9: transaction views are cached shadows
(transaction.js `Transaction.view`, part `TransactionHelper.getView`) -/

/-- The per-transaction view state of `Transaction.view` /
`TransactionHelper.getView`: the object-to-shadow cache, with shadow
identity made explicit (`Object.create(o)` allocates a fresh shadow;
`nextId` is the allocator) and each shadow's own properties stored against
its id together with its prototype object. A `ShadowRec` is one shadow:
its prototype object and its own properties. -/
structure ShadowRec where
  proto : Nat
  props : List (Value × Option Record)
deriving DecidableEq

/-- The allocator, cache and shadow store of a transaction. -/
structure ViewState where
  nextId : Nat
  viewMap : List (Nat × Nat)
  shadows : List (Nat × ShadowRec)
deriving DecidableEq

/-- The world: the underlying objects (by id) plus the transaction state. -/
structure ViewWorld where
  bases : List (Nat × List (Value × Record))
  txn : ViewState
deriving DecidableEq

/-- `Transaction.view(o)` / `getView(o)`: return the cached shadow, or
create one via `Object.create(o)` and cache it. -/
def transactionView (t : ViewState) (o : Nat) : ViewState × Nat :=
  match t.viewMap.lookup o with
  | some v => (t, v)
  | none =>
    ({ nextId := t.nextId + 1,
       viewMap := (o, t.nextId) :: t.viewMap,
       shadows := (t.nextId, ⟨o, []⟩) :: t.shadows }, t.nextId)

/-- `view[k] = r`: set an own property of the shadow; the underlying object
is untouched (prototype writes never occur). -/
def viewWrite (w : ViewWorld) (v : Nat) (k : Value) (r : Option Record) : ViewWorld :=
  let newShadows := w.txn.shadows.map (fun p =>
    if p.1 = v then (p.1, ⟨p.2.proto, setAssocK p.2.props k r⟩) else p)
  { w with txn := { w.txn with shadows := newShadows } }

/-- `view[k]`: own properties of the shadow first, then the prototype
object. -/
def viewRead (w : ViewWorld) (v : Nat) (k : Value) : Option Record :=
  match w.txn.shadows.lookup v with
  | none => none
  | some pr =>
    match pr.props.lookup k with
    | some x => x
    | none => (w.bases.lookup pr.proto).bind (fun b => b.lookup k)

/-- C9: for the first `view(o)` call of a transaction, (1) an immediate
second call returns the identical shadow and leaves the state unchanged;
(2) the cache entry survives obtaining views of other objects, so every
later call returns the same shadow; (3) a write made through the view is
seen by a subsequent read through the view; (4) the underlying objects are
untouched by view creation and view writes. -/
theorem c9_view_cached_write_visible (w : ViewWorld) (o oo : Nat) (k : Value)
    (r : Record) (hfresh : w.txn.viewMap.lookup o = none) :
    transactionView (transactionView w.txn o).1 o = transactionView w.txn o ∧
    ((transactionView (transactionView w.txn o).1 oo).1.viewMap.lookup o =
      some (transactionView w.txn o).2) ∧
    viewRead (viewWrite { w with txn := (transactionView w.txn o).1 }
        (transactionView w.txn o).2 k (some r)) (transactionView w.txn o).2 k =
      some r ∧
    (viewWrite { w with txn := (transactionView w.txn o).1 }
        (transactionView w.txn o).2 k (some r)).bases = w.bases := by
  have hview : transactionView w.txn o =
      ({ nextId := w.txn.nextId + 1,
         viewMap := (o, w.txn.nextId) :: w.txn.viewMap,
         shadows := (w.txn.nextId, ⟨o, []⟩) :: w.txn.shadows }, w.txn.nextId) := by
    unfold transactionView
    rw [hfresh]
  rw [hview]
  refine ⟨?_, ?_, ?_, rfl⟩
  · unfold transactionView
    simp [List.lookup]
  · unfold transactionView
    rcases hlo : List.lookup oo ((o, w.txn.nextId) :: w.txn.viewMap) with _ | v
    · by_cases ho : oo = o
      · subst ho
        simp [List.lookup] at hlo
      · simp only [List.lookup]
        rw [show (o == oo) = false by simp [Ne.symm ho]]
        simp [List.lookup]
    · simp [List.lookup]
  · unfold viewWrite viewRead
    rw [List.map_cons]
    rw [if_pos (show ((w.txn.nextId, (⟨o, []⟩ : ShadowRec)) : Nat × ShadowRec).1 =
      w.txn.nextId from rfl)]
    simp [List.lookup, setAssocK]

/-- The concrete world of the C9 witness: one underlying object (id 0) with
one record, and a fresh transaction. -/
def c9World : ViewWorld :=
  ⟨[(0, [(.num 1, [("city", .val (.str "San Francisco"))])])], ⟨0, [], []⟩⟩

/-- The record written through the view in the C9 witness. -/
def c9Rec : Record := [("city", .val (.str "Boston"))]

/-- Closed instance discharging the hypothesis of
`c9_view_cached_write_visible` at a concrete input. -/
theorem c9_view_witness :
    transactionView (transactionView c9World.txn 0).1 0 = transactionView c9World.txn 0 ∧
    ((transactionView (transactionView c9World.txn 0).1 1).1.viewMap.lookup 0 =
      some (transactionView c9World.txn 0).2) ∧
    viewRead (viewWrite { c9World with txn := (transactionView c9World.txn 0).1 }
        (transactionView c9World.txn 0).2 (.num 2) (some c9Rec))
      (transactionView c9World.txn 0).2 (.num 2) = some c9Rec ∧
    (viewWrite { c9World with txn := (transactionView c9World.txn 0).1 }
        (transactionView c9World.txn 0).2 (.num 2) (some c9Rec)).bases = c9World.bases :=
  c9_view_cached_write_visible c9World 0 1 (.num 2) c9Rec rfl

end FluentQuery
